import Mathlib

/-!
Verification development for `magefile.go`.

A shallow embedding of the build helper `magefile.go` (artifact download and
extraction, version resolution, config templating and the end-to-end test
orchestration) together with the properties proved about it.

Conventions of the embedding:

* a Go `string` is a list of characters (`GoString`);
* a Go `error` value is `Option GoError`, `none` being `nil`;
* code that talks to the outside world is written in state-passing style over
  a `World`, which holds the process environment, a file system, the outcomes
  of external commands and requests, and the trace of operations issued.
-/

namespace Magefile

/-! ## Strings -/

/-- A Go string, as the sequence of its characters. -/
abbrev GoString := List Char

/-- Go `strings.Index(s, substr)`: position of the first occurrence of
`substr` in `s`; `none` stands for the result `-1`. -/
def Index : GoString → GoString → Option Nat
  | [], substr => if substr.isPrefixOf [] then some 0 else none
  | c :: s, substr =>
    if substr.isPrefixOf (c :: s) then some 0
    else (Index s substr).map (· + 1)

/-- The loop of Go `strings.Count` for a non-empty `substr`: find the next
occurrence, count it, continue after it. Every round drops at least one
character, so `s.length` rounds always suffice (`countLoop_fuel`). -/
def countLoop (substr : GoString) : Nat → GoString → Nat
  | 0, _ => 0
  | fuel + 1, s =>
    match Index s substr with
    | none => 0
    | some i => countLoop substr fuel (s.drop (i + substr.length)) + 1

/-- Go `strings.Count(s, substr)`: the number of non-overlapping occurrences
of `substr` in `s`, and one more than the number of characters of `s` when
`substr` is empty. -/
def Count (s substr : GoString) : Nat :=
  if substr = [] then s.length + 1 else countLoop substr s.length s

/-- The replacement loop of Go `strings.Replace`: `n` rounds are left, `i` is
the round counter and `rest` is `s[start:]`. With an empty `old` the
replacement goes in front of the string and after each character; otherwise
at the next occurrence of `old`. `Replace` only asks for as many rounds as
`Count` found occurrences, so the occurrence is always there
(`replaceLoop_found`); the branch `none` is not reached. -/
def replaceLoop (old new : GoString) : Nat → Nat → GoString → GoString
  | 0, _, rest => rest
  | n + 1, i, rest =>
    if old = [] then
      let j := if 0 < i then 1 else 0
      rest.take j ++ new ++ replaceLoop old new n (i + 1) (rest.drop j)
    else
      match Index rest old with
      | none => rest
      | some j =>
        rest.take j ++ new ++ replaceLoop old new n (i + 1) (rest.drop (j + old.length))

/-- Go `strings.Replace(s, old, new, n)`: the first `n` non-overlapping
occurrences of `old` replaced by `new`; all of them when `n < 0`. -/
def Replace (s old new : GoString) (n : Int) : GoString :=
  if old = new ∨ n = 0 then s
  else
    let m := Count s old
    if m = 0 then s
    else
      let n := if n < 0 ∨ (m : Int) < n then m else n.toNat
      replaceLoop old new n 0 s

/-! ## Paths (Go package `path`) -/

/-- Splits a path at every slash. -/
def splitSlash : GoString → List GoString
  | [] => [[]]
  | c :: s =>
    if c = '/' then [] :: splitSlash s
    else
      match splitSlash s with
      | [] => [[c]]
      | e :: es => (c :: e) :: es

/-- One step of `path.Clean` on the stack of elements kept so far (last
element first): empty elements and `.` are dropped, `..` removes the element
before it, is dropped at the root and is kept at the start of a relative
path. -/
def cleanStep (rooted : Bool) (stack : List GoString) (e : GoString) : List GoString :=
  if e = [] ∨ e = ['.'] then stack
  else if e = ['.', '.'] then
    match stack with
    | [] => if rooted then [] else [e]
    | top :: below => if top = ['.', '.'] then e :: stack else below
  else e :: stack

/-- Go `path.Clean`: the shortest path equivalent to `p`. -/
def Clean (p : GoString) : GoString :=
  let rooted := p.head? = some '/'
  let elems := ((splitSlash p).foldl (cleanStep rooted) []).reverse
  let body := List.intercalate ['/'] elems
  if rooted then '/' :: body
  else if body = [] then ['.'] else body

/-- Position after the last slash of `p`: the `i + 1` of Go `path.Split`. -/
def afterLastSlash : GoString → Nat
  | [] => 0
  | c :: s =>
    if s.contains '/' then afterLastSlash s + 1
    else if c = '/' then 1 else 0

/-- Go `path.Dir`: all but the last element of `p`, cleaned. -/
def Dir (p : GoString) : GoString :=
  Clean (p.take (afterLastSlash p))

/-- Go `path.Join`: the elements are appended to a buffer, a slash between
them, empty elements being skipped as long as the buffer is empty; the result
is cleaned, and is the empty string when all elements are empty. -/
def Join (elem : List GoString) : GoString :=
  if (elem.map List.length).sum = 0 then []
  else
    Clean (elem.foldl (fun buf e =>
      if buf ≠ [] ∨ e ≠ [] then (if buf ≠ [] then buf ++ ['/'] else buf) ++ e
      else buf) [])

/-! ## Errors -/

/-- Error numbers of the operating system that the model tells apart. -/
inductive Errno
  | ENOENT
  | EEXIST
  | EISDIR
  | ENOTDIR
  | ENOTEMPTY
  | EACCES
  deriving DecidableEq, Repr

/-- A non-nil Go `error` value. -/
inductive GoError
  /-- The value of `errors.New(msg)` and of `fmt.Errorf`. -/
  | errorString (msg : GoString)
  /-- An `*fs.PathError`: the operation, the path and the error number. -/
  | pathError (op path : GoString) (errno : Errno)
  /-- The value of `errors.Join`: the non-nil errors it was given, in order. -/
  | joinError (errs : List GoError)

/-- Go `errors.Join`: `nil` when every argument is `nil`, otherwise an error
that wraps the non-nil arguments in order. -/
def errorsJoin (errs : List (Option GoError)) : Option GoError :=
  match errs.filterMap id with
  | [] => none
  | e :: es => some (.joinError (e :: es))

/-- Go `os.IsExist`: whether the error reports that a file or directory
already exists. -/
def osIsExist : GoError → Bool
  | .pathError _ _ .EEXIST => true
  | .pathError _ _ .ENOTEMPTY => true
  | _ => false

/-! ## The world -/

/-- An external command line: the program and its arguments. -/
structure Command where
  cmd : GoString
  args : List GoString
  deriving DecidableEq

/-- The operations on the outside world that the program issues. -/
inductive Event
  /-- A command run through `sh.RunV` or `sh.Output`. -/
  | exec (c : Command)
  /-- Call of `os.Create`. -/
  | create (name : GoString)
  /-- Call of `http.Get`. -/
  | get (url : GoString)
  /-- Call of `io.Copy` into the file `dst`. -/
  | copy (dst : GoString)
  /-- Call of `zip.OpenReader`. -/
  | openReader (name : GoString)
  /-- Call of `os.MkdirAll`. -/
  | mkdirAll (dir : GoString)
  /-- Call of `os.Mkdir`. -/
  | mkdir (dir : GoString)
  /-- Call of `os.Remove`. -/
  | remove (name : GoString)
  /-- Call of `os.WriteFile`. -/
  | writeFile (name data : GoString)
  deriving DecidableEq

/-- A byte stream to read from: it delivers `data` and then ends, with the
error `err` if it is not `none`. -/
structure Reader where
  data : GoString
  err : Option GoError

/-- An `*http.Response`, as far as the program looks at it. -/
structure Response where
  StatusCode : Nat
  Status : GoString
  Body : Reader

/-- An entry of a zip archive (`*zip.File`): its name and what `file.Open()`
gives. -/
structure ZipFile where
  Name : GoString
  content : Except GoError Reader

/-- The state of the outside world. -/
structure World where
  /-- The process environment; an unset variable reads as the empty string. -/
  env : GoString → GoString
  /-- What an external command prints and whether it fails. -/
  result : Command → GoString × Option GoError
  /-- Operations that fail for a reason outside the model (permissions, the
  network, a damaged archive), with the error they fail with. -/
  fault : Event → Option GoError
  /-- The response of the server to a GET request. -/
  response : GoString → Response
  /-- The entries, in index order, of the zip archive with the given bytes. -/
  archive : GoString → List ZipFile
  /-- The directories that exist, by cleaned path. -/
  isDir : GoString → Bool
  /-- The regular files that exist, by cleaned path, with their contents. -/
  file : GoString → Option GoString
  /-- The operations issued so far, oldest first. -/
  trace : List Event

/-- What a Go function of result type `error` gives: the error and the world
it leaves. -/
abbrev Result := Option GoError × World

/-- Records an operation in the trace. -/
def World.log (w : World) (e : Event) : World :=
  { w with trace := w.trace ++ [e] }

/-- The operations issued on the way from `w₀` to `w`. -/
def World.since (w w₀ : World) : List Event :=
  w.trace.drop w₀.trace.length

/-- Go `os.Getenv`. -/
def osGetenv (key : GoString) (w : World) : GoString :=
  w.env key

/-- Mage `sh.RunV`: runs the command and reports whether it failed. -/
def shRunV (cmd : GoString) (args : List GoString) (w : World) : Result :=
  ((w.result ⟨cmd, args⟩).2, w.log (.exec ⟨cmd, args⟩))

/-- Mage `sh.Output`: runs the command and returns what it printed. -/
def shOutput (cmd : GoString) (args : List GoString) (w : World) :
    (GoString × Option GoError) × World :=
  (w.result ⟨cmd, args⟩, w.log (.exec ⟨cmd, args⟩))

/-- Go `os.Create`: creates or truncates the file. It fails when the parent
directory does not exist and when the name is that of a directory. On
success the result is the handle of the file, which is its cleaned path. -/
def osCreate (name : GoString) (w : World) : Except GoError GoString × World :=
  let w := w.log (.create name)
  match w.fault (.create name) with
  | some err => (.error err, w)
  | none =>
    if !w.isDir (Dir name) then (.error (.pathError "open".toList name .ENOENT), w)
    else if w.isDir (Clean name) then (.error (.pathError "open".toList name .EISDIR), w)
    else
      (.ok (Clean name),
        { w with file := fun p => if p = Clean name then some [] else w.file p })

/-- Go `http.Get`. -/
def httpGet (url : GoString) (w : World) : Except GoError Response × World :=
  let w := w.log (.get url)
  match w.fault (.get url) with
  | some err => (.error err, w)
  | none => (.ok (w.response url), w)

/-- Go `io.Copy(out, src)`: appends what `src` delivers to the file behind
the handle `out` and returns the error `src` ended with, if any. -/
def ioCopy (out : GoString) (src : Reader) (w : World) : Result :=
  let w := w.log (.copy out)
  match w.fault (.copy out) with
  | some err => (some err, w)
  | none =>
    (src.err,
      { w with file := fun p =>
          if p = out then some ((w.file out).getD [] ++ src.data) else w.file p })

/-- Go `zip.OpenReader`: opens the named file as a zip archive and gives its
entries in index order. -/
def zipOpenReader (name : GoString) (w : World) : Except GoError (List ZipFile) × World :=
  let w := w.log (.openReader name)
  match w.fault (.openReader name) with
  | some err => (.error err, w)
  | none =>
    match w.file (Clean name) with
    | none => (.error (.pathError "open".toList name .ENOENT), w)
    | some bytes => (.ok (w.archive bytes), w)

/-- The path `p` and the directories above it: `p`, `Dir p`, `Dir (Dir p)`
and so on, `n + 1` paths in all. -/
def dirChain : Nat → GoString → List GoString
  | 0, p => [p]
  | n + 1, p => p :: dirChain n (Dir p)

/-- Go `os.MkdirAll`: creates the directory and the missing directories above
it; no error when it exists already. It fails when a regular file is in the
way. -/
def osMkdirAll (dir : GoString) (w : World) : Result :=
  let w := w.log (.mkdirAll dir)
  match w.fault (.mkdirAll dir) with
  | some err => (some err, w)
  | none =>
    let chain := dirChain (Clean dir).length (Clean dir)
    if chain.any (fun p => (w.file p).isSome) then
      (some (.pathError "mkdir".toList dir .ENOTDIR), w)
    else
      (none, { w with isDir := fun p => w.isDir p || chain.contains p })

/-- Go `os.Mkdir`: creates one directory; it is an error when the name exists
already or the parent directory does not exist. -/
def osMkdir (name : GoString) (w : World) : Result :=
  let w := w.log (.mkdir name)
  match w.fault (.mkdir name) with
  | some err => (some err, w)
  | none =>
    if w.isDir (Clean name) || (w.file (Clean name)).isSome then
      (some (.pathError "mkdir".toList name .EEXIST), w)
    else if !w.isDir (Dir name) then
      (some (.pathError "mkdir".toList name .ENOENT), w)
    else
      (none, { w with isDir := fun p => p = Clean name || w.isDir p })

/-- Go `os.Remove`: removes the named file or directory. -/
def osRemove (name : GoString) (w : World) : Result :=
  let w := w.log (.remove name)
  match w.fault (.remove name) with
  | some err => (some err, w)
  | none =>
    if (w.file (Clean name)).isSome then
      (none, { w with file := fun p => if p = Clean name then none else w.file p })
    else if w.isDir (Clean name) then
      (none, { w with isDir := fun p => p ≠ Clean name && w.isDir p })
    else
      (some (.pathError "remove".toList name .ENOENT), w)

/-- Go `os.WriteFile`: writes `data` to the named file, creating or
truncating it. -/
def osWriteFile (name data : GoString) (w : World) : Result :=
  let w := w.log (.writeFile name data)
  match w.fault (.writeFile name data) with
  | some err => (some err, w)
  | none =>
    if !w.isDir (Dir name) then (some (.pathError "open".toList name .ENOENT), w)
    else if w.isDir (Clean name) then (some (.pathError "open".toList name .EISDIR), w)
    else
      (none, { w with file := fun p => if p = Clean name then some data else w.file p })

/-! ## The program -/

/-- The function `download`: fetches `url` into the file `dst`. The deferred
`Close` calls release handles and change nothing the model holds. -/
def download (url dst : GoString) (w : World) : Result :=
  match osCreate dst w with
  | (.error err, w) => (some err, w)
  | (.ok out, w) =>
    match httpGet url w with
    | (.error err, w) => (some err, w)
    | (.ok resp, w) =>
      if resp.StatusCode ≠ 200 then
        (some (.errorString ("bad status: ".toList ++ resp.Status)), w)
      else
        match ioCopy out resp.Body w with
        | (some err, w) => (some err, w)
        | (none, w) => (none, w)

/-- The loop of `unzip` over the entries of the archive `name`. The result of
`os.MkdirAll` is dropped, as in the source. -/
def unzipLoop (name : GoString) : List ZipFile → World → Result
  | [], w => (none, w)
  | file :: files, w =>
    match file.content with
    | .error err => (some err, w)
    | .ok input =>
      let dir := Dir name
      let w := (osMkdirAll dir w).2
      match osCreate (Join [dir, file.Name]) w with
      | (.error err, w) => (some err, w)
      | (.ok out, w) =>
        match ioCopy out input w with
        | (some err, w) => (some err, w)
        | (none, w) => unzipLoop name files w

/-- The function `unzip`: extracts the archive `name` into the directory it
lies in. -/
def unzip (name : GoString) (w : World) : Result :=
  match zipOpenReader name w with
  | (.error err, w) => (some err, w)
  | (.ok files, w) => unzipLoop name files w

/-- The placeholder of `artifactURL`. -/
def versionPlaceholder : GoString := "\x7bversion\x7d".toList

/-- The constant `artifactURL`. -/
def artifactURL : GoString :=
  "https://github.com/timbit123/coraza-http-wasm/releases/download/\x7bversion\x7d/coraza-http-wasm-\x7bversion\x7d.zip".toList

/-- The part of `artifactURL` before the first placeholder. -/
def urlHead : GoString :=
  "https://github.com/timbit123/coraza-http-wasm/releases/download/".toList

/-- The part of `artifactURL` between the two placeholders. -/
def urlMiddle : GoString := "/coraza-http-wasm-".toList

/-- The part of `artifactURL` after the second placeholder. -/
def urlTail : GoString := ".zip".toList

/-- The name of the downloaded archive. -/
def archiveName : GoString := "coraza-http-wasm.zip".toList

/-- The URL that `downloadHTTPWasmArtifact` downloads from. -/
def downloadURL (version : GoString) : GoString :=
  Replace artifactURL versionPlaceholder version 2

/-- The path `downloadHTTPWasmArtifact` gives the archive in the directory
`dir`. -/
def archivePath (dir : GoString) : GoString :=
  Join [dir, archiveName]

/-- The function `downloadHTTPWasmArtifact`: download, unzip, remove the
archive. -/
def downloadHTTPWasmArtifact (version dir : GoString) (w : World) : Result :=
  let url := downloadURL version
  match download url (archivePath dir) w with
  | (some err, w) => (some err, w)
  | (none, w) =>
    match unzip (archivePath dir) w with
    | (some err, w) => (some err, w)
    | (none, w) => osRemove (archivePath dir) w

/-- The command that asks for the tag of the newest release. -/
def releaseQuery : Command :=
  ⟨"gh".toList, ["api".toList, "repos/timbit123/coraza-http-wasm/releases".toList,
    "-q".toList, ".[0].tag_name".toList]⟩

/-- The function `getHttpWasmVersion`: `VERSION` from the environment, or the
tag of the newest release when it is empty. -/
def getHttpWasmVersion (w : World) : (GoString × Option GoError) × World :=
  let version := osGetenv "VERSION".toList w
  if version = [] then
    match shOutput releaseQuery.cmd releaseQuery.args w with
    | ((_, some err), w) => (([], some err), w)
    | ((version, none), w) => ((version, none), w)
  else ((version, none), w)

/-- The function `DownloadArtifact`. -/
def DownloadArtifact (w : World) : Result :=
  let (err, w) := osMkdir "build".toList w
  if err.any (fun e => !osIsExist e) then (err, w)
  else
    match getHttpWasmVersion w with
    | ((_, some err), w) => (some err, w)
    | ((version, none), w) => downloadHTTPWasmArtifact version "./build".toList w

/-- The constant `e2eSourceLocal`. -/
def e2eSourceLocal : GoString := "local".toList

/-- The constant `e2eSourceRemote`. -/
def e2eSourceRemote : GoString := "remote".toList

/-- The local `dockerComposeArgs` of `e2e`. -/
def dockerComposeArgs : List GoString :=
  ["compose".toList, "-f".toList, "docker-compose.yml".toList, "-f".toList,
    "e2e/docker-compose.e2e.yml".toList]

/-- The command of `e2e` that starts the services. -/
def upCommand (source : GoString) : Command :=
  ⟨"docker".toList,
    dockerComposeArgs ++ ["up".toList, "-d".toList, "e2e_traefik_".toList ++ source]⟩

/-- The command of `e2e` that stops the services and removes the volumes. -/
def downCommand : Command :=
  ⟨"docker".toList, dockerComposeArgs ++ ["down".toList, "-v".toList]⟩

/-- The command of `e2e` that prints the logs of the proxy. -/
def logsCommand : Command :=
  ⟨"docker".toList, dockerComposeArgs ++ ["logs".toList, "traefik".toList]⟩

/-- The command of `e2e` that runs the end-to-end checks against the two
hosts. -/
def verifyCommand (proxyHost httpbinHost : GoString) : Command :=
  ⟨"go".toList,
    ["run".toList, "github.com/corazawaf/coraza/v3/http/e2e/cmd/httpe2e@main".toList,
      "--proxy-hostport".toList, "http://".toList ++ proxyHost,
      "--httpbin-hostport".toList, "http://".toList ++ httpbinHost]⟩

/-- The value `e2e` gives `proxyHost`. -/
def proxyHost (w : World) : GoString :=
  if osGetenv "TRAEFIK_HOST".toList w = [] then "localhost:8080".toList
  else osGetenv "TRAEFIK_HOST".toList w

/-- The value `e2e` gives `httpbinHost`. -/
def httpbinHost (w : World) : GoString :=
  if osGetenv "HTTPBIN_HOST".toList w = [] then "localhost:8000".toList
  else osGetenv "HTTPBIN_HOST".toList w

/-- The function `e2e`. The deferred function is registered once `up` has
succeeded; it runs when `e2e` returns, after the value to return is fixed,
and drops the result of `down`. -/
def e2e (source : GoString) (w : World) : Result :=
  match shRunV (upCommand source).cmd (upCommand source).args w with
  | (some err, w) => (some err, w)
  | (none, w) =>
    let verify := verifyCommand (proxyHost w) (httpbinHost w)
    let (err, w) := shRunV verify.cmd verify.args w
    let w :=
      match err with
      | some _ => (shRunV logsCommand.cmd logsCommand.args w).2
      | none => w
    let w := (shRunV downCommand.cmd downCommand.args w).2
    (err, w)

/-- The placeholder of the config template. -/
def configPlaceholder : GoString := "\x7b\x7bversion\x7d\x7d".toList

/-- The config that `UpdateVersion` renders from the template `staticConfig`,
the embedded file `config-static.yaml.tmpl`. -/
def renderedStaticConfig (staticConfig : GoString) (w : World) : GoString :=
  Replace staticConfig configPlaceholder (osGetenv "VERSION".toList w) 1

/-- The first file `UpdateVersion` writes. -/
def configStaticPath : GoString := "config-static.yaml".toList

/-- The second file `UpdateVersion` writes. -/
def configRemotePath : GoString := "e2e/config-static.remote.yaml".toList

/-- The function `UpdateVersion`, for the template `staticConfig`. The
arguments of `errors.Join` are evaluated in order. -/
def UpdateVersion (staticConfig : GoString) (w : World) : Result :=
  if osGetenv "VERSION".toList w = [] then
    (some (.errorString "VERSION environment variable is not set".toList), w)
  else
    let rendered := renderedStaticConfig staticConfig w
    let (err₁, w) := osWriteFile configStaticPath rendered w
    let (err₂, w) := osWriteFile configRemotePath rendered w
    (errorsJoin [err₁, err₂], w)

/-! ## Worlds to run the program in -/

/-- A world with an empty environment and an empty file system below the
working directory, in which every command succeeds and prints nothing and
every request is answered with status 200 and an empty body. -/
def quietWorld : World where
  env := fun _ => []
  result := fun _ => ([], none)
  fault := fun _ => none
  response := fun _ => ⟨200, "200 OK".toList, ⟨[], none⟩⟩
  archive := fun _ => []
  isDir := fun p => p = ['.']
  file := fun _ => none
  trace := []

/-- An error to let operations fail with. -/
def failure : GoError := .errorString "exit status 1".toList

/-- The quiet world, but the `up` command for the local source fails. -/
def upFailsWorld : World :=
  { quietWorld with
    result := fun c => if c = upCommand e2eSourceLocal then ([], some failure) else ([], none) }

/-- The quiet world, but with `VERSION` set to `v1.2.3` and a release query
that would fail. -/
def overrideWorld : World :=
  { quietWorld with
    env := fun k => if k = "VERSION".toList then "v1.2.3".toList else []
    result := fun c => if c = releaseQuery then ([], some failure) else ([], none) }

/-- The quiet world, but the release query prints the tag `v0.3.0`. -/
def releaseWorld : World :=
  { quietWorld with
    result := fun c => if c = releaseQuery then ("v0.3.0".toList, none) else ([], none) }

/-- The quiet world, but every request is answered with status 404. -/
def notFoundWorld : World :=
  { quietWorld with
    response := fun _ => ⟨404, "404 Not Found".toList, ⟨"Not Found".toList, none⟩⟩ }

/-- A world with `VERSION` set to `v1.2.3` and the directory `e2e`, in which
`config-static.yaml` cannot be written. -/
def writeFailsWorld : World :=
  { quietWorld with
    env := fun k => if k = "VERSION".toList then "v1.2.3".toList else []
    isDir := fun p => p = ['.'] || p = "e2e".toList
    fault := fun e =>
      match e with
      | .writeFile name _ => if name = configStaticPath then some failure else none
      | _ => none }

/-- A template in which the placeholder occurs twice. -/
def sampleTemplate : GoString :=
  "image: \x7b\x7bversion\x7d\x7d # \x7b\x7bversion\x7d\x7d".toList

/-- The bytes of the archive used in the extraction worlds. -/
def sampleArchive : GoString := "PK".toList

/-- A world for `unzip`: no faults, the directory `build` exists and holds the
archive `build/coraza-http-wasm.zip`, whose entries in index order are
`a.txt` with content `x` and `dir/b.txt` with content `y`; the directory
`build/dir` does not exist. -/
def extractWorld : World :=
  { quietWorld with
    isDir := fun p => p = ['.'] || p = "build".toList
    file := fun p => if p = "build/coraza-http-wasm.zip".toList then some sampleArchive else none
    archive := fun bytes =>
      if bytes = sampleArchive then
        [⟨"a.txt".toList, .ok ⟨"x".toList, none⟩⟩, ⟨"dir/b.txt".toList, .ok ⟨"y".toList, none⟩⟩]
      else [] }

/-- The world `extractWorld`, but with the directory `build/dir` in place. -/
def extractWorldWithDir : World :=
  { extractWorld with
    isDir := fun p => p = ['.'] || p = "build".toList || p = "build/dir".toList }

/-- A world for the acquisition of the artifact: no faults, the directory
`build` exists, the server answers with an archive whose only entry is
`coraza-http-wasm.wasm`. -/
def artifactWorld : World :=
  { quietWorld with
    isDir := fun p => p = ['.'] || p = "build".toList
    response := fun _ => ⟨200, "200 OK".toList, ⟨sampleArchive, none⟩⟩
    archive := fun bytes =>
      if bytes = sampleArchive then
        [⟨"coraza-http-wasm.wasm".toList, .ok ⟨"wasm".toList, none⟩⟩]
      else [] }

/-- The operations that `download` issues. -/
def Event.ofDownload : Event → Bool
  | .create _ => true
  | .get _ => true
  | .copy _ => true
  | _ => false

/-- The operations that `unzip` issues. -/
def Event.ofUnzip : Event → Bool
  | .openReader _ => true
  | .mkdirAll _ => true
  | .create _ => true
  | .copy _ => true
  | _ => false

/-! ## Lemmas on strings -/

theorem Index_of_isPrefix {s old : GoString} (h : old <+: s) : Index s old = some 0 := by
  cases s with
  | nil => simp [Index, List.prefix_nil.mp h]
  | cons c s => simp [Index, h]

theorem Index_eq_none_iff (s old : GoString) : Index s old = none ↔ ¬ old <:+: s := by
  induction s with
  | nil => simp [Index]
  | cons c s ih =>
    rw [Index, List.infix_cons_iff]
    by_cases h : old <+: c :: s
    · simp [h]
    · simp [h, ih]

theorem Index_append_of_first (P old S : GoString)
    (h : ∀ k, k < P.length → ¬ old <+: (P ++ old ++ S).drop k) :
    Index (P ++ old ++ S) old = some P.length := by
  induction P with
  | nil => exact Index_of_isPrefix (by simp)
  | cons c P ih =>
    have h0 : ¬ old <+: c :: (P ++ old ++ S) := by simpa using h 0 (by simp)
    have ih' := ih (fun k hk => by simpa using h (k + 1) (by simpa using hk))
    simp only [List.cons_append, List.append_assoc] at ih' h0 ⊢
    rw [Index]
    simp [h0, ih']

/-- When `old` occurs in `P ++ old` at its end only, no occurrence of `old`
in `P ++ old ++ S` starts inside `P`. -/
theorem no_earlier_occurrence (P old S : GoString)
    (hfirst : ∀ A B : GoString, P ++ old = A ++ old ++ B → B = []) :
    ∀ k, k < P.length → ¬ old <+: (P ++ old ++ S).drop k := by
  intro k hk hpre
  have hdrop : (P ++ old ++ S).drop k = (P.drop k ++ old) ++ S := by
    rw [List.append_assoc, List.drop_append_of_le_length (Nat.le_of_lt hk), List.append_assoc]
  rw [hdrop] at hpre
  have hlen : old.length ≤ (P.drop k ++ old).length := by simp
  obtain ⟨B, hB⟩ := List.prefix_of_prefix_length_le hpre (List.prefix_append _ _) hlen
  have hsplit : P ++ old = P.take k ++ old ++ B := by
    rw [List.append_assoc, hB, ← List.append_assoc, List.take_append_drop]
  have hBnil := hfirst _ _ hsplit
  have hl := congrArg List.length hB
  simp [hBnil] at hl
  omega

theorem Index_le_of_occurrence (old B : GoString) :
    ∀ (A : GoString) (i : Nat), Index (A ++ old ++ B) old = some i → i ≤ A.length := by
  intro A
  induction A with
  | nil =>
    intro i h
    rw [Index_of_isPrefix (by simp)] at h
    simp only [Option.some.injEq] at h
    omega
  | cons a A ih =>
    intro i h
    simp only [List.cons_append] at h
    rw [Index] at h
    split at h
    · simp only [Option.some.injEq] at h
      omega
    · cases hi : Index (A ++ old ++ B) old with
      | none =>
        rw [hi] at h
        simp at h
      | some i' =>
        have := ih i' hi
        rw [hi] at h
        simp only [Option.map_some', Option.some.injEq] at h
        simp only [List.length_cons]
        omega

/-- When `Index` finds `old` in `P ++ old` at the end, `old` occurs in
`P ++ old` at its end only. -/
theorem last_only_of_Index (P old : GoString) (h : Index (P ++ old) old = some P.length) :
    ∀ A B : GoString, P ++ old = A ++ old ++ B → B = [] := by
  intro A B hAB
  rw [hAB] at h
  have hle := Index_le_of_occurrence old B A P.length h
  have hlen := congrArg List.length hAB
  simp only [List.length_append] at hlen
  exact List.length_eq_zero.mp (by omega)

theorem countLoop_fuel (old : GoString) (hold : old ≠ []) :
    ∀ (f f' : Nat) (s : GoString), s.length ≤ f → s.length ≤ f' →
      countLoop old f s = countLoop old f' s := by
  intro f
  induction f with
  | zero =>
    intro f' s hs _
    have : s = [] := List.length_eq_zero.mp (Nat.le_zero.mp hs)
    subst this
    cases f' with
    | zero => rfl
    | succ f' =>
      have : Index [] old = none := by simp [Index, hold]
      simp [countLoop, this]
  | succ f ih =>
    intro f' s hs hs'
    cases hi : Index s old with
    | none =>
      cases f' with
      | zero => simp [countLoop, hi]
      | succ f' => simp [countLoop, hi]
    | some i =>
      have hpos : 0 < old.length := List.length_pos.mpr hold
      have hne : s ≠ [] := by
        rintro rfl
        simp [Index, hold] at hi
      have hspos : 0 < s.length := List.length_pos.mpr hne
      cases f' with
      | zero => omega
      | succ f' =>
        simp only [countLoop, hi]
        rw [ih f' (s.drop (i + old.length)) (by simp; omega) (by simp; omega)]

/-- Enough fuel: `Count` is what the loop of `strings.Count` gives with any
number of rounds from the length of the string on. -/
theorem countLoop_eq_Count (old : GoString) (hold : old ≠ []) (f : Nat) (s : GoString)
    (hf : s.length ≤ f) : countLoop old f s = Count s old := by
  simp only [Count, hold, if_false]
  exact countLoop_fuel old hold f s.length s hf (Nat.le_refl _)

theorem Count_eq_zero_iff (s old : GoString) (hold : old ≠ []) :
    Count s old = 0 ↔ ¬ old <:+: s := by
  rw [← Index_eq_none_iff]
  simp only [Count, hold, if_false]
  cases s with
  | nil => simp [countLoop, Index, hold]
  | cons c s =>
    simp only [List.length_cons, countLoop]
    cases Index (c :: s) old <;> simp

/-- Every round of the loop of `Replace` finds its occurrence: when `n + 1`
rounds are left and `old` occurs at least so often, `Index` finds it and it
occurs at least `n` times after it. -/
theorem replaceLoop_found (old rest : GoString) (hold : old ≠ []) (n : Nat)
    (h : n + 1 ≤ Count rest old) :
    ∃ j, Index rest old = some j ∧ n ≤ Count (rest.drop (j + old.length)) old := by
  have hpos : 0 < old.length := List.length_pos.mpr hold
  cases hi : Index rest old with
  | none =>
    have := (Count_eq_zero_iff rest old hold).mpr ((Index_eq_none_iff rest old).mp hi)
    omega
  | some j =>
    refine ⟨j, rfl, ?_⟩
    cases rest with
    | nil => simp [Index, hold] at hi
    | cons c s =>
      have hc : Count (c :: s) old
          = countLoop old s.length ((c :: s).drop (j + old.length)) + 1 := by
        simp only [Count, hold, if_false, List.length_cons, countLoop, hi]
      rw [countLoop_eq_Count old hold _ _ (by simp; omega)] at hc
      omega

theorem Replace_of_not_infix (s old new : GoString) (n : Int) (h : ¬ old <:+: s) :
    Replace s old new n = s := by
  have hold : old ≠ [] := by
    rintro rfl
    exact h List.nil_infix
  unfold Replace
  split
  · rfl
  · simp [(Count_eq_zero_iff s old hold).mpr h]

theorem Replace_one_first (P old new S : GoString) (hold : old ≠ [])
    (hfirst : ∀ A B : GoString, P ++ old = A ++ old ++ B → B = []) :
    Replace (P ++ old ++ S) old new 1 = P ++ new ++ S := by
  by_cases hsame : old = new
  · subst hsame
    simp [Replace]
  · have hidx := Index_append_of_first P old S (no_earlier_occurrence P old S hfirst)
    have hcount : Count (P ++ old ++ S) old ≠ 0 := by
      rw [Ne, Count_eq_zero_iff _ _ hold]
      simp
    have hn : (if (1 : Int) < 0 ∨ ((Count (P ++ old ++ S) old : Nat) : Int) < 1
        then Count (P ++ old ++ S) old else (1 : Int).toNat) = 1 := by
      have : ¬ ((1 : Int) < 0 ∨ ((Count (P ++ old ++ S) old : Nat) : Int) < 1) := by omega
      rw [if_neg this]
      rfl
    unfold Replace
    simp only [hsame, false_or, one_ne_zero, if_false, hcount, hn]
    simp only [List.append_assoc] at hidx
    simp [replaceLoop, hold, hidx, List.drop_append]

theorem replaceLoop_step (old new rest : GoString) (hold : old ≠ []) (n i j : Nat)
    (hj : Index rest old = some j) :
    replaceLoop old new (n + 1) i rest
      = rest.take j ++ new ++ replaceLoop old new n (i + 1) (rest.drop (j + old.length)) := by
  simp [replaceLoop, hold, hj]

/-- An occurrence of `P` cannot reach over a character that `P` does not
contain. -/
theorem infix_append_cons_of_not_mem (P A B : GoString) (r : Char) (hr : r ∉ P) :
    P <:+: A ++ r :: B ↔ P <:+: A ∨ P <:+: B := by
  have hpre : ∀ A' : GoString, P <+: A' ++ r :: B → P <+: A' := by
    intro A' h
    obtain ⟨t, ht⟩ := h
    rcases List.append_eq_append_iff.mp ht with ⟨a', hA, _⟩ | ⟨c', hP, hc⟩
    · exact ⟨a', hA.symm⟩
    · cases c' with
      | nil => simp [hP]
      | cons x c'' =>
        simp only [List.cons_append, List.cons.injEq] at hc
        exact absurd (by simp [hP, hc.1]) hr
  constructor
  · intro h
    induction A with
    | nil =>
      rcases List.infix_cons_iff.mp h with h | h
      · exact Or.inl (hpre [] h).isInfix
      · exact Or.inr h
    | cons a A ih =>
      rcases List.infix_cons_iff.mp h with h | h
      · exact Or.inl (hpre (a :: A) h).isInfix
      · rcases ih h with h | h
        · exact Or.inl (List.infix_cons h)
        · exact Or.inr h
  · rintro (h | h)
    · exact h.trans (List.infix_append' [] A (r :: B))
    · exact h.trans ((List.suffix_cons r B).isInfix.trans (List.suffix_append A _).isInfix)

theorem artifactURL_eq :
    artifactURL = urlHead ++ versionPlaceholder ++ urlMiddle ++ versionPlaceholder ++ urlTail := by
  decide

/-- The URL is the template with both placeholders replaced by the version. -/
theorem downloadURL_eq (V : GoString) :
    downloadURL V = urlHead ++ V ++ urlMiddle ++ V ++ urlTail := by
  by_cases hsame : versionPlaceholder = V
  · subst hsame
    simp [downloadURL, Replace, artifactURL_eq]
  · have hold : versionPlaceholder ≠ [] := by decide
    have hcount : Count artifactURL versionPlaceholder = 2 := by decide
    have h1 : Index artifactURL versionPlaceholder = some 64 := by decide
    have h2 : artifactURL.take 64 = urlHead := by decide
    have h3 : artifactURL.drop (64 + versionPlaceholder.length)
        = urlMiddle ++ versionPlaceholder ++ urlTail := by decide
    have h4 : Index (urlMiddle ++ versionPlaceholder ++ urlTail) versionPlaceholder
        = some 18 := by decide
    have h5 : (urlMiddle ++ versionPlaceholder ++ urlTail).take 18 = urlMiddle := by decide
    have h6 : (urlMiddle ++ versionPlaceholder ++ urlTail).drop (18 + versionPlaceholder.length)
        = urlTail := by decide
    have hrounds : Replace artifactURL versionPlaceholder V 2
        = replaceLoop versionPlaceholder V 2 0 artifactURL := by
      unfold Replace
      rw [hcount]
      simp [hsame]
    unfold downloadURL
    rw [hrounds, replaceLoop_step _ _ _ hold _ _ _ h1, h2, h3,
      replaceLoop_step _ _ _ hold _ _ _ h4, h5, h6]
    simp [replaceLoop]

/-- The placeholder occurs in the URL exactly when it occurs in the version. -/
theorem placeholder_infix_downloadURL (V : GoString) :
    versionPlaceholder <:+: downloadURL V ↔ versionPlaceholder <:+: V := by
  have hshape : downloadURL V
      = urlHead.dropLast ++ '/' :: (V ++ '/' :: ((urlMiddle.drop 1).dropLast
          ++ '-' :: (V ++ '.' :: urlTail.drop 1))) := by
    have e1 : urlHead = urlHead.dropLast ++ ['/'] := by decide
    have e2 : urlMiddle = '/' :: ((urlMiddle.drop 1).dropLast ++ ['-']) := by decide
    have e3 : urlTail = '.' :: urlTail.drop 1 := by decide
    rw [downloadURL_eq]
    conv_lhs => rw [e1, e2, e3]
    simp
  have s1 : '/' ∉ versionPlaceholder := by decide
  have s2 : '-' ∉ versionPlaceholder := by decide
  have s3 : '.' ∉ versionPlaceholder := by decide
  have n1 : ¬ versionPlaceholder <:+: urlHead.dropLast := by
    rw [← Index_eq_none_iff]; decide
  have n2 : ¬ versionPlaceholder <:+: (urlMiddle.drop 1).dropLast := by
    rw [← Index_eq_none_iff]; decide
  have n3 : ¬ versionPlaceholder <:+: urlTail.drop 1 := by
    rw [← Index_eq_none_iff]; decide
  rw [hshape, infix_append_cons_of_not_mem _ _ _ _ s1, infix_append_cons_of_not_mem _ _ _ _ s1,
    infix_append_cons_of_not_mem _ _ _ _ s2, infix_append_cons_of_not_mem _ _ _ _ s3]
  tauto

/-! ## Lemmas on traces -/

theorem since_of_trace_eq {w w₀ : World} {l : List Event}
    (h : w.trace = w₀.trace ++ l) : w.since w₀ = l := by
  simp [World.since, h]

/-! ## The end-to-end orchestration -/

/-- C1: when the `up` command fails, `e2e` issues nothing else, so no `down`
and no verification command; when it succeeds, `down -v` is issued exactly
once and is the last command issued, whatever the other commands do. -/
theorem e2e_teardown_trace (source : GoString) (w : World) :
    ((w.result (upCommand source)).2 ≠ none →
      (e2e source w).2.since w = [.exec (upCommand source)] ∧
      ((e2e source w).2.since w).count (.exec downCommand) = 0 ∧
      ∀ p h, Event.exec (verifyCommand p h) ∉ (e2e source w).2.since w) ∧
    ((w.result (upCommand source)).2 = none →
      ((e2e source w).2.since w).count (.exec downCommand) = 1 ∧
      ((e2e source w).2.since w).getLast? = some (.exec downCommand)) := by
  have hup : upCommand source ≠ downCommand := by
    simp [upCommand, downCommand, dockerComposeArgs]
  have hlogs : logsCommand ≠ downCommand := by decide
  have hver : ∀ p h, verifyCommand p h ≠ downCommand := by
    intro p h; simp [verifyCommand, downCommand]
  have hver' : ∀ p h, upCommand source ≠ verifyCommand p h := by
    intro p h; simp [verifyCommand, upCommand]
  constructor
  · intro hfail
    obtain ⟨err, herr⟩ := Option.ne_none_iff_exists'.mp hfail
    have hs : (e2e source w).2.since w = [.exec (upCommand source)] := by
      apply since_of_trace_eq
      simp [e2e, shRunV, herr, World.log]
    rw [hs]
    refine ⟨rfl, ?_, ?_⟩
    · simp [List.count_cons, hup]
    · intro p h; simp [(hver' p h).symm]
  · intro hok
    cases hv : (w.result (verifyCommand (proxyHost w) (httpbinHost w))).2 with
    | none =>
      have hs : (e2e source w).2.since w =
          [.exec (upCommand source),
            .exec (verifyCommand (proxyHost w) (httpbinHost w)), .exec downCommand] := by
        apply since_of_trace_eq
        simp [e2e, shRunV, hok, World.log, proxyHost, httpbinHost, osGetenv] at hv ⊢
        simp [hv]
      rw [hs]
      simp [List.count_cons, hup, hver]
    | some e =>
      have hs : (e2e source w).2.since w =
          [.exec (upCommand source),
            .exec (verifyCommand (proxyHost w) (httpbinHost w)), .exec logsCommand,
            .exec downCommand] := by
        apply since_of_trace_eq
        simp [e2e, shRunV, hok, World.log, proxyHost, httpbinHost, osGetenv] at hv ⊢
        simp [hv]
      rw [hs]
      simp [List.count_cons, hup, hver, hlogs]

/-- C2: when `up` fails `e2e` returns its error; when `up` succeeds `e2e`
returns exactly what the verification command returned, whatever the `logs`
and `down -v` commands do. -/
theorem e2e_returns_verification (source : GoString) (w : World) :
    (e2e source w).1 =
      match (w.result (upCommand source)).2 with
      | some err => some err
      | none => (w.result (verifyCommand (proxyHost w) (httpbinHost w))).2 := by
  cases hup : (w.result (upCommand source)).2 with
  | some err => simp [e2e, shRunV, hup]
  | none =>
    simp [e2e, shRunV, hup, World.log, proxyHost, httpbinHost, osGetenv]

/-- Witness of `e2e_teardown_trace`: a failing `up` for the local source, and
a run for the remote source in which every command succeeds. -/
theorem e2e_teardown_trace_witness :
    ((e2e e2eSourceLocal upFailsWorld).2.since upFailsWorld
        = [.exec (upCommand e2eSourceLocal)] ∧
      ((e2e e2eSourceLocal upFailsWorld).2.since upFailsWorld).count (.exec downCommand) = 0 ∧
      ∀ p h, Event.exec (verifyCommand p h) ∉
        (e2e e2eSourceLocal upFailsWorld).2.since upFailsWorld) ∧
    (((e2e e2eSourceRemote quietWorld).2.since quietWorld).count (.exec downCommand) = 1 ∧
      ((e2e e2eSourceRemote quietWorld).2.since quietWorld).getLast?
        = some (.exec downCommand)) :=
  ⟨(e2e_teardown_trace e2eSourceLocal upFailsWorld).1 (by simp [upFailsWorld]),
    (e2e_teardown_trace e2eSourceRemote quietWorld).2 rfl⟩

/-! ## Version resolution -/

/-- C7: with `VERSION` set to a non-empty `V`, `getHttpWasmVersion` returns
`(V, nil)` and leaves the world as it was: the release query is not run. -/
theorem getHttpWasmVersion_override (V : GoString) (w : World) (hV : V ≠ [])
    (henv : w.env "VERSION".toList = V) :
    getHttpWasmVersion w = ((V, none), w) ∧
      Event.exec releaseQuery ∉ (getHttpWasmVersion w).2.since w := by
  have h : getHttpWasmVersion w = ((V, none), w) := by
    unfold getHttpWasmVersion osGetenv
    rw [henv, if_neg hV]
  refine ⟨h, ?_⟩
  rw [h]
  simp [World.since]

/-- Witness of `getHttpWasmVersion_override`: `VERSION` is `v1.2.3` and the
release query would fail. -/
theorem getHttpWasmVersion_override_witness :
    getHttpWasmVersion overrideWorld = (("v1.2.3".toList, none), overrideWorld) ∧
      Event.exec releaseQuery ∉ (getHttpWasmVersion overrideWorld).2.since overrideWorld :=
  getHttpWasmVersion_override "v1.2.3".toList overrideWorld (by decide) (by decide)

/-- C8, as stated, fails: with `VERSION` unset and a release query that
succeeds and prints nothing, `getHttpWasmVersion` returns the empty version
without an error, and `DownloadArtifact` goes on to
`downloadHTTPWasmArtifact` with it. -/
theorem getHttpWasmVersion_empty_version :
    (getHttpWasmVersion quietWorld).1 = ([], none) ∧
    DownloadArtifact quietWorld =
      downloadHTTPWasmArtifact [] "./build".toList
        (getHttpWasmVersion (osMkdir "build".toList quietWorld).2).2 ∧
    ¬ ∀ w : World, (getHttpWasmVersion w).1.2 = none → (getHttpWasmVersion w).1.1 ≠ [] := by
  refine ⟨rfl, rfl, ?_⟩
  intro h
  exact h quietWorld rfl rfl

/-- C8, amended: if the release query, when it is needed and does not fail,
prints a non-empty tag, then a version that `getHttpWasmVersion` returns
without error is non-empty, `DownloadArtifact` hands exactly that version to
`downloadHTTPWasmArtifact`, and when the resolution fails `DownloadArtifact`
returns its error. -/
theorem getHttpWasmVersion_nonempty (w : World)
    (hq : w.env "VERSION".toList = [] → (w.result releaseQuery).2 = none →
      (w.result releaseQuery).1 ≠ []) :
    ((getHttpWasmVersion w).1.2 = none → (getHttpWasmVersion w).1.1 ≠ []) ∧
    (∀ version w₂, ¬ (osMkdir "build".toList w).1.any (fun e => !osIsExist e) →
      getHttpWasmVersion (osMkdir "build".toList w).2 = ((version, none), w₂) →
      version ≠ [] ∧
        DownloadArtifact w = downloadHTTPWasmArtifact version "./build".toList w₂) ∧
    (∀ version err w₂, ¬ (osMkdir "build".toList w).1.any (fun e => !osIsExist e) →
      getHttpWasmVersion (osMkdir "build".toList w).2 = ((version, some err), w₂) →
      DownloadArtifact w = (some err, w₂)) := by
  have key : ∀ w' : World, w'.env = w.env → w'.result = w.result →
      (getHttpWasmVersion w').1.2 = none → (getHttpWasmVersion w').1.1 ≠ [] := by
    intro w' he hr
    unfold getHttpWasmVersion osGetenv shOutput
    rw [he, hr]
    by_cases hv : w.env "VERSION".toList = []
    · rw [if_pos hv]
      have hq' := hq hv
      revert hq'
      cases hres : w.result releaseQuery with
      | mk out err =>
        cases err with
        | none => intro hq' _; simpa [releaseQuery] using hq' rfl
        | some e => intro _ hn; simp [releaseQuery, hres] at hn
    · rw [if_neg hv]
      intro _
      exact hv
  have henv : (osMkdir "build".toList w).2.env = w.env := by
    unfold osMkdir World.log
    dsimp only
    split <;> [rfl; (split <;> [rfl; (split <;> rfl)])]
  have hres : (osMkdir "build".toList w).2.result = w.result := by
    unfold osMkdir World.log
    dsimp only
    split <;> [rfl; (split <;> [rfl; (split <;> rfl)])]
  refine ⟨key w rfl rfl, ?_, ?_⟩
  · intro version w₂ hmk hget
    have hne := key _ henv hres
    rw [hget] at hne
    refine ⟨hne rfl, ?_⟩
    unfold DownloadArtifact
    simp only [hmk, hget]
    simp
  · intro version err w₂ hmk hget
    unfold DownloadArtifact
    simp only [hmk, hget]
    simp

/-- Witness of `getHttpWasmVersion_nonempty`: `VERSION` is unset and the
release query prints `v0.3.0`. -/
theorem getHttpWasmVersion_nonempty_witness :
    ((getHttpWasmVersion releaseWorld).1.2 = none →
      (getHttpWasmVersion releaseWorld).1.1 ≠ []) ∧
    (∀ version w₂, ¬ (osMkdir "build".toList releaseWorld).1.any (fun e => !osIsExist e) →
      getHttpWasmVersion (osMkdir "build".toList releaseWorld).2 = ((version, none), w₂) →
      version ≠ [] ∧
        DownloadArtifact releaseWorld
          = downloadHTTPWasmArtifact version "./build".toList w₂) ∧
    (∀ version err w₂,
      ¬ (osMkdir "build".toList releaseWorld).1.any (fun e => !osIsExist e) →
      getHttpWasmVersion (osMkdir "build".toList releaseWorld).2
        = ((version, some err), w₂) →
      DownloadArtifact releaseWorld = (some err, w₂)) :=
  getHttpWasmVersion_nonempty releaseWorld (by
    intro _ _
    show (releaseWorld.result releaseQuery).1 ≠ []
    decide)

/-! ## The URL of the artifact -/

/-- C4, as stated, fails: for the non-empty version that is the placeholder
itself, the URL still contains the placeholder, twice. -/
theorem downloadURL_placeholder_remains :
    versionPlaceholder ≠ [] ∧
    Count (downloadURL versionPlaceholder) versionPlaceholder = 2 ∧
    ¬ ∀ V : GoString, V ≠ [] → Count (downloadURL V) versionPlaceholder = 0 := by
  refine ⟨by decide, by decide, ?_⟩
  intro h
  exact absurd (h versionPlaceholder (by decide)) (by decide)

/-- C4, amended: for every non-empty version `V` the URL is the template with
both placeholders replaced by `V`, and it contains no placeholder exactly
when `V` contains none. -/
theorem downloadURL_spec (V : GoString) (_hV : V ≠ []) :
    downloadURL V =
      "https://github.com/timbit123/coraza-http-wasm/releases/download/".toList ++ V
        ++ "/coraza-http-wasm-".toList ++ V ++ ".zip".toList ∧
    (Count (downloadURL V) versionPlaceholder = 0 ↔ Count V versionPlaceholder = 0) := by
  have hold : versionPlaceholder ≠ [] := by decide
  refine ⟨downloadURL_eq V, ?_⟩
  rw [Count_eq_zero_iff _ _ hold, Count_eq_zero_iff _ _ hold, placeholder_infix_downloadURL]

/-- Witness of `downloadURL_spec`: the version `v1.2.3`. -/
theorem downloadURL_spec_witness :
    downloadURL "v1.2.3".toList =
      "https://github.com/timbit123/coraza-http-wasm/releases/download/".toList
        ++ "v1.2.3".toList ++ "/coraza-http-wasm-".toList ++ "v1.2.3".toList ++ ".zip".toList ∧
    (Count (downloadURL "v1.2.3".toList) versionPlaceholder = 0 ↔
      Count "v1.2.3".toList versionPlaceholder = 0) :=
  downloadURL_spec "v1.2.3".toList (by decide)

/-! ## Lemmas on the operations -/

theorem osWriteFile_trace (name data : GoString) (w : World) :
    (osWriteFile name data w).2.trace = w.trace ++ [.writeFile name data] := by
  unfold osWriteFile World.log
  dsimp only
  split <;> [rfl; (split <;> [rfl; (split <;> rfl)])]

theorem osWriteFile_file (name data : GoString) (w : World)
    (h : (osWriteFile name data w).1 = none) :
    (osWriteFile name data w).2.file (Clean name) = some data := by
  unfold osWriteFile World.log at h ⊢
  dsimp only at h ⊢
  split at h
  · simp at h
  · split at h
    · simp at h
    · split at h
      · simp at h
      · rename_i h1 h2 h3
        simp [h1, h2, h3]

theorem errorsJoin_pair (a b : Option GoError) :
    errorsJoin [a, b] =
      match a, b with
      | none, none => none
      | some e, none => some (.joinError [e])
      | none, some e => some (.joinError [e])
      | some e₁, some e₂ => some (.joinError [e₁, e₂]) := by
  cases a <;> cases b <;> rfl

theorem UpdateVersion_eq (staticConfig : GoString) (w : World)
    (hV : w.env "VERSION".toList ≠ []) :
    UpdateVersion staticConfig w =
      (errorsJoin
        [(osWriteFile configStaticPath (renderedStaticConfig staticConfig w) w).1,
          (osWriteFile configRemotePath (renderedStaticConfig staticConfig w)
            (osWriteFile configStaticPath (renderedStaticConfig staticConfig w) w).2).1],
        (osWriteFile configRemotePath (renderedStaticConfig staticConfig w)
            (osWriteFile configStaticPath (renderedStaticConfig staticConfig w) w).2).2) := by
  unfold UpdateVersion osGetenv
  rw [if_neg hV]

theorem UpdateVersion_since (staticConfig : GoString) (w : World)
    (hV : w.env "VERSION".toList ≠ []) :
    (UpdateVersion staticConfig w).2.since w =
      [.writeFile configStaticPath (renderedStaticConfig staticConfig w),
        .writeFile configRemotePath (renderedStaticConfig staticConfig w)] := by
  apply since_of_trace_eq
  rw [UpdateVersion_eq staticConfig w hV]
  simp [osWriteFile_trace]

/-! ## Config templating -/

/-- C6: with `VERSION` set, `UpdateVersion` issues both writes, in order and
with the rendered config, whatever the first one gives; when the first write
fails and the second succeeds, the second file holds the rendered config and
the result is the `errors.Join` value that wraps the failure of the first;
the result is `nil` exactly when both writes succeed. -/
theorem UpdateVersion_writes_both (staticConfig : GoString) (w : World)
    (hV : w.env "VERSION".toList ≠ []) :
    (UpdateVersion staticConfig w).2.since w =
      [.writeFile configStaticPath (renderedStaticConfig staticConfig w),
        .writeFile configRemotePath (renderedStaticConfig staticConfig w)] ∧
    (∀ errA,
      (osWriteFile configStaticPath (renderedStaticConfig staticConfig w) w).1 = some errA →
      (osWriteFile configRemotePath (renderedStaticConfig staticConfig w)
        (osWriteFile configStaticPath (renderedStaticConfig staticConfig w) w).2).1 = none →
      (UpdateVersion staticConfig w).2.file (Clean configRemotePath)
          = some (renderedStaticConfig staticConfig w) ∧
        (UpdateVersion staticConfig w).1 = some (.joinError [errA])) ∧
    ((UpdateVersion staticConfig w).1 = none ↔
      (osWriteFile configStaticPath (renderedStaticConfig staticConfig w) w).1 = none ∧
      (osWriteFile configRemotePath (renderedStaticConfig staticConfig w)
        (osWriteFile configStaticPath (renderedStaticConfig staticConfig w) w).2).1 = none) := by
  refine ⟨UpdateVersion_since staticConfig w hV, ?_, ?_⟩
  · intro errA hA hB
    rw [UpdateVersion_eq staticConfig w hV]
    refine ⟨osWriteFile_file _ _ _ hB, ?_⟩
    simp only [hA, hB, errorsJoin_pair]
  · rw [UpdateVersion_eq staticConfig w hV]
    simp only [errorsJoin_pair]
    cases (osWriteFile configStaticPath (renderedStaticConfig staticConfig w) w).1 <;>
      cases (osWriteFile configRemotePath (renderedStaticConfig staticConfig w)
        (osWriteFile configStaticPath (renderedStaticConfig staticConfig w) w).2).1 <;> simp

/-- Witness of `UpdateVersion_writes_both`: `config-static.yaml` cannot be
written, the remote config can; it then holds the rendered sample template and
the result wraps the failure. -/
theorem UpdateVersion_writes_both_witness :
    (UpdateVersion sampleTemplate writeFailsWorld).2.file configRemotePath
      = some "image: v1.2.3 # \x7b\x7bversion\x7d\x7d".toList ∧
    (UpdateVersion sampleTemplate writeFailsWorld).1 = some (.joinError [failure]) :=
  (UpdateVersion_writes_both sampleTemplate writeFailsWorld (by decide)).2.1 failure rfl rfl

/-- C10: with `VERSION` set to a non-empty `V`, the config rendered from a
template `P ++ "{{version}}" ++ S` in which `P ++ "{{version}}"` holds the
placeholder at its end only is `P ++ V ++ S`, with `S` untouched; a template
without the placeholder is rendered as it is; and both writes of
`UpdateVersion` are given the same rendered config. -/
theorem UpdateVersion_renders_first (T V : GoString) (w : World) (hV : V ≠ [])
    (henv : w.env "VERSION".toList = V) :
    (∀ P S : GoString, T = P ++ configPlaceholder ++ S →
      (∀ A B : GoString, P ++ configPlaceholder = A ++ configPlaceholder ++ B → B = []) →
      renderedStaticConfig T w = P ++ V ++ S) ∧
    (¬ configPlaceholder <:+: T → renderedStaticConfig T w = T) ∧
    (UpdateVersion T w).2.since w =
      [.writeFile configStaticPath (renderedStaticConfig T w),
        .writeFile configRemotePath (renderedStaticConfig T w)] := by
  refine ⟨?_, ?_, UpdateVersion_since T w (by rw [henv]; exact hV)⟩
  · intro P S hT hfirst
    unfold renderedStaticConfig osGetenv
    rw [henv, hT]
    exact Replace_one_first P configPlaceholder V S (by decide) hfirst
  · intro hno
    exact Replace_of_not_infix _ _ _ _ hno

/-- Witness of `UpdateVersion_renders_first`: the sample template, in which
the placeholder occurs twice, and the version `v1.2.3`. -/
theorem UpdateVersion_renders_first_witness :
    renderedStaticConfig sampleTemplate writeFailsWorld
      = "image: ".toList ++ "v1.2.3".toList ++ " # \x7b\x7bversion\x7d\x7d".toList :=
  (UpdateVersion_renders_first sampleTemplate "v1.2.3".toList writeFailsWorld (by decide)
    (by decide)).1 "image: ".toList " # \x7b\x7bversion\x7d\x7d".toList (by decide)
    (last_only_of_Index _ _ (by decide))

/-! ## Download -/

theorem osCreate_trace (name : GoString) (w : World) :
    (osCreate name w).2.trace = w.trace ++ [.create name] := by
  unfold osCreate World.log
  dsimp only
  split <;> [rfl; (split <;> [rfl; (split <;> rfl)])]

theorem osCreate_ok (name out : GoString) (w : World) (h : (osCreate name w).1 = .ok out) :
    out = Clean name ∧ (osCreate name w).2.file out = some [] := by
  unfold osCreate World.log at h ⊢
  dsimp only at h ⊢
  split at h
  · simp at h
  · split at h
    · simp at h
    · split at h
      · simp at h
      · rename_i h1 h2 h3
        simp only [Except.ok.injEq] at h
        subst h
        simp [h1, h2, h3]

theorem httpGet_world (url : GoString) (w : World) :
    (httpGet url w).2 = w.log (.get url) := by
  unfold httpGet
  dsimp only
  split <;> rfl

theorem ioCopy_trace (out : GoString) (src : Reader) (w : World) :
    (ioCopy out src w).2.trace = w.trace ++ [.copy out] := by
  unfold ioCopy World.log
  dsimp only
  split <;> rfl

theorem download_trace (url dst : GoString) (w : World) :
    ∃ l, (download url dst w).2.trace = w.trace ++ .create dst :: l ∧
      ∀ e ∈ l, e.ofDownload = true := by
  have t1 := osCreate_trace dst w
  rcases h1 : osCreate dst w with ⟨r1, w1⟩
  rw [h1] at t1
  dsimp only at t1
  cases r1 with
  | error err => exact ⟨[], by simp [download, h1, t1]⟩
  | ok out =>
    have t2 : (httpGet url w1).2.trace = w1.trace ++ [.get url] := by
      rw [httpGet_world]; rfl
    rcases h2 : httpGet url w1 with ⟨r2, w2⟩
    rw [h2] at t2
    dsimp only at t2
    cases r2 with
    | error err => exact ⟨[.get url], by simp [download, h1, h2, t1, t2, Event.ofDownload]⟩
    | ok resp =>
      by_cases hs : resp.StatusCode = 200
      · have t3 := ioCopy_trace out resp.Body w2
        rcases h3 : ioCopy out resp.Body w2 with ⟨r3, w3⟩
        rw [h3] at t3
        dsimp only at t3
        refine ⟨[.get url, .copy out], ?_, by simp [Event.ofDownload]⟩
        cases r3 <;> simp [download, h1, h2, h3, hs, t1, t2, t3]
      · exact ⟨[.get url], by simp [download, h1, h2, hs, t1, t2, Event.ofDownload]⟩

/-- C5: when creating the destination file and the GET request both succeed,
`download` returns `nil` exactly when the status code is 200 and the copy of
the body succeeds; for any other status code it returns the error
`bad status: ` followed by the status text, issues no copy and no removal,
and leaves the created file in place, empty. -/
theorem download_bad_status (url dst out : GoString) (resp : Response) (w : World)
    (hcreate : (osCreate dst w).1 = .ok out)
    (hget : (httpGet url (osCreate dst w).2).1 = .ok resp) :
    ((download url dst w).1 = none ↔
      resp.StatusCode = 200 ∧
        (ioCopy out resp.Body (httpGet url (osCreate dst w).2).2).1 = none) ∧
    (resp.StatusCode ≠ 200 →
      (download url dst w).1 = some (.errorString ("bad status: ".toList ++ resp.Status)) ∧
      (download url dst w).2.since w = [.create dst, .get url] ∧
      out = Clean dst ∧
      (download url dst w).2.file out = some []) := by
  have hout := osCreate_ok dst out w hcreate
  have t1 := osCreate_trace dst w
  have hw2 := httpGet_world url (osCreate dst w).2
  rcases h1 : osCreate dst w with ⟨r1, w1⟩
  rw [h1] at hcreate hget hout t1 hw2
  simp only at hcreate hout t1
  subst hcreate
  rcases h2 : httpGet url w1 with ⟨r2, w2⟩
  rw [h2] at hget hw2
  simp only at hget hw2
  subst hget
  constructor
  · by_cases hs : resp.StatusCode = 200
    · rcases h3 : ioCopy out resp.Body w2 with ⟨r3, w3⟩
      cases r3 <;> simp [download, h1, h2, h3, hs]
    · simp [download, h1, h2, hs]
  · intro hs
    have hd : download url dst w
        = (some (.errorString ("bad status: ".toList ++ resp.Status)), w2) := by
      simp [download, h1, h2, hs]
    rw [hd]
    refine ⟨rfl, ?_, hout.1, ?_⟩
    · apply since_of_trace_eq
      simp [hw2, World.log, t1]
    · simp [hw2, World.log, hout.2]

/-- Witness of `download_bad_status`: the server answers 404. -/
theorem download_bad_status_witness :
    (download "http://example.com/a.zip".toList "a.zip".toList notFoundWorld).1
      = some (.errorString "bad status: 404 Not Found".toList) ∧
    (download "http://example.com/a.zip".toList "a.zip".toList notFoundWorld).2.since
      notFoundWorld
      = [.create "a.zip".toList, .get "http://example.com/a.zip".toList] ∧
    "a.zip".toList = Clean "a.zip".toList ∧
    (download "http://example.com/a.zip".toList "a.zip".toList notFoundWorld).2.file
      "a.zip".toList = some [] :=
  (download_bad_status "http://example.com/a.zip".toList "a.zip".toList "a.zip".toList
    ⟨404, "404 Not Found".toList, ⟨"Not Found".toList, none⟩⟩ notFoundWorld rfl rfl).2
    (by decide)

/-! ## Extraction and the acquisition of the artifact -/

theorem osMkdirAll_trace (dir : GoString) (w : World) :
    (osMkdirAll dir w).2.trace = w.trace ++ [.mkdirAll dir] := by
  unfold osMkdirAll World.log
  dsimp only
  split <;> [rfl; (split <;> rfl)]

theorem zipOpenReader_trace (name : GoString) (w : World) :
    (zipOpenReader name w).2.trace = w.trace ++ [.openReader name] := by
  unfold zipOpenReader World.log
  dsimp only
  split <;> [rfl; (split <;> rfl)]

theorem osRemove_trace (name : GoString) (w : World) :
    (osRemove name w).2.trace = w.trace ++ [.remove name] := by
  unfold osRemove World.log
  dsimp only
  split <;> [rfl; (split <;> [rfl; (split <;> rfl)])]

theorem unzipLoop_trace (name : GoString) (files : List ZipFile) :
    ∀ w : World, ∃ l, (unzipLoop name files w).2.trace = w.trace ++ l ∧
      ∀ e ∈ l, e.ofUnzip = true := by
  induction files with
  | nil => intro w; exact ⟨[], by simp [unzipLoop]⟩
  | cons file files ih =>
    intro w
    cases hc : file.content with
    | error err => exact ⟨[], by simp [unzipLoop, hc]⟩
    | ok input =>
      have t0 := osMkdirAll_trace (Dir name) w
      rcases h0 : osMkdirAll (Dir name) w with ⟨r0, w0⟩
      rw [h0] at t0
      dsimp only at t0
      have t1 := osCreate_trace (Join [Dir name, file.Name]) w0
      rcases h1 : osCreate (Join [Dir name, file.Name]) w0 with ⟨r1, w1⟩
      rw [h1] at t1
      dsimp only at t1
      cases r1 with
      | error err =>
        exact ⟨[.mkdirAll (Dir name), .create (Join [Dir name, file.Name])],
          by simp [unzipLoop, hc, h0, h1, t0, t1, Event.ofUnzip]⟩
      | ok out =>
        have t2 := ioCopy_trace out input w1
        rcases h2 : ioCopy out input w1 with ⟨r2, w2⟩
        rw [h2] at t2
        dsimp only at t2
        cases r2 with
        | some err =>
          exact ⟨[.mkdirAll (Dir name), .create (Join [Dir name, file.Name]), .copy out],
            by simp [unzipLoop, hc, h0, h1, h2, t0, t1, t2, Event.ofUnzip]⟩
        | none =>
          obtain ⟨l, hl, hP⟩ := ih w2
          refine ⟨[.mkdirAll (Dir name), .create (Join [Dir name, file.Name]), .copy out]
            ++ l, ?_, ?_⟩
          · simp [unzipLoop, hc, h0, h1, h2, hl, t0, t1, t2]
          · intro e he
            simp only [List.cons_append, List.nil_append, List.mem_cons] at he
            rcases he with rfl | rfl | rfl | he
            · rfl
            · rfl
            · rfl
            · exact hP e he

theorem unzip_trace (name : GoString) (w : World) :
    ∃ l, (unzip name w).2.trace = w.trace ++ .openReader name :: l ∧
      ∀ e ∈ l, e.ofUnzip = true := by
  have t0 := zipOpenReader_trace name w
  rcases h0 : zipOpenReader name w with ⟨r0, w0⟩
  rw [h0] at t0
  dsimp only at t0
  cases r0 with
  | error err => exact ⟨[], by simp [unzip, h0, t0]⟩
  | ok files =>
    obtain ⟨l, hl, hP⟩ := unzipLoop_trace name files w0
    exact ⟨l, by simp [unzip, h0, hl, t0], hP⟩

theorem not_remove_of_ofDownload {e : Event} (h : e.ofDownload = true) :
    (∀ n, e ≠ .openReader n) ∧ ∀ n, e ≠ .remove n := by
  cases e <;> simp [Event.ofDownload] at h ⊢

theorem not_remove_of_ofUnzip {e : Event} (h : e.ofUnzip = true) : ∀ n, e ≠ .remove n := by
  cases e <;> simp [Event.ofUnzip] at h ⊢

/-- C9: `downloadHTTPWasmArtifact` downloads, unzips and removes the archive
in this order and stops at the first failure. When the download fails, its
error is returned and neither the archive is opened nor anything removed;
when unzip fails, its error is returned and nothing is removed; when both
succeed, the removal of the archive is issued once, as the last operation,
and its result is the result of the function. -/
theorem downloadHTTPWasmArtifact_steps (version dir : GoString) (w : World) :
    let d := download (downloadURL version) (archivePath dir) w
    let u := unzip (archivePath dir) d.2
    let r := downloadHTTPWasmArtifact version dir w
    (∀ err, d.1 = some err →
      r = (some err, d.2) ∧
      r.2.since w = d.2.since w ∧
      (r.2.since w).head? = some (.create (archivePath dir)) ∧
      ∀ e ∈ r.2.since w, (∀ n, e ≠ .openReader n) ∧ ∀ n, e ≠ .remove n) ∧
    (d.1 = none → ∀ err, u.1 = some err →
      r = (some err, u.2) ∧
      (∃ ld lu, r.2.since w
          = (.create (archivePath dir) :: ld) ++ (.openReader (archivePath dir) :: lu) ∧
        d.2.since w = .create (archivePath dir) :: ld ∧
        u.2.since d.2 = .openReader (archivePath dir) :: lu ∧
        (∀ e ∈ ld, e.ofDownload = true) ∧ ∀ e ∈ lu, e.ofUnzip = true) ∧
      ∀ e ∈ r.2.since w, ∀ n, e ≠ .remove n) ∧
    (d.1 = none → u.1 = none →
      r = osRemove (archivePath dir) u.2 ∧
      (∃ ld lu, r.2.since w
          = (.create (archivePath dir) :: ld) ++ (.openReader (archivePath dir) :: lu)
            ++ [.remove (archivePath dir)] ∧
        d.2.since w = .create (archivePath dir) :: ld ∧
        u.2.since d.2 = .openReader (archivePath dir) :: lu ∧
        (∀ e ∈ ld, e.ofDownload = true) ∧ ∀ e ∈ lu, e.ofUnzip = true) ∧
      (r.2.since w).count (.remove (archivePath dir)) = 1 ∧
      (r.2.since w).getLast? = some (.remove (archivePath dir))) := by
  intro d u r
  obtain ⟨ld, hld, hldP⟩ := download_trace (downloadURL version) (archivePath dir) w
  obtain ⟨lu, hlu, hluP⟩ := unzip_trace (archivePath dir) d.2
  have hr : (osRemove (archivePath dir) u.2).2.trace
      = u.2.trace ++ [.remove (archivePath dir)] := osRemove_trace (archivePath dir) u.2
  have hld' : d.2.trace = w.trace ++ .create (archivePath dir) :: ld := hld
  have hlu' : u.2.trace = d.2.trace ++ .openReader (archivePath dir) :: lu := hlu
  have hds : d.2.since w = .create (archivePath dir) :: ld := since_of_trace_eq hld
  have hus : u.2.since d.2 = .openReader (archivePath dir) :: lu := since_of_trace_eq hlu
  refine ⟨?_, ?_, ?_⟩
  · intro err hd
    have hres : r = (some err, d.2) := by
      show downloadHTTPWasmArtifact version dir w = _
      unfold downloadHTTPWasmArtifact
      have : download (downloadURL version) (archivePath dir) w = (some err, d.2) :=
        Prod.ext hd rfl
      simp only [this]
    rw [hres]
    refine ⟨rfl, rfl, ?_, ?_⟩
    · simp [hds]
    · intro e he
      rw [hds] at he
      rcases List.mem_cons.mp he with rfl | he
      · simp
      · exact not_remove_of_ofDownload (hldP e he)
  · intro hd err hu
    have hres : r = (some err, u.2) := by
      show downloadHTTPWasmArtifact version dir w = _
      unfold downloadHTTPWasmArtifact
      have h1 : download (downloadURL version) (archivePath dir) w = (none, d.2) :=
        Prod.ext hd rfl
      have h2 : unzip (archivePath dir) d.2 = (some err, u.2) := Prod.ext hu rfl
      simp only [h1, h2]
    have hs : r.2.since w
        = (.create (archivePath dir) :: ld) ++ (.openReader (archivePath dir) :: lu) := by
      rw [hres]
      apply since_of_trace_eq
      show u.2.trace = _
      rw [hlu', hld', List.append_assoc]
    refine ⟨hres, ⟨ld, lu, hs, hds, hus, hldP, hluP⟩, ?_⟩
    intro e he
    rw [hs] at he
    rcases List.mem_append.mp he with he | he
    · rcases List.mem_cons.mp he with rfl | he
      · simp
      · exact (not_remove_of_ofDownload (hldP e he)).2
    · rcases List.mem_cons.mp he with rfl | he
      · simp
      · exact not_remove_of_ofUnzip (hluP e he)
  · intro hd hu
    have hres : r = osRemove (archivePath dir) u.2 := by
      show downloadHTTPWasmArtifact version dir w = _
      unfold downloadHTTPWasmArtifact
      have h1 : download (downloadURL version) (archivePath dir) w = (none, d.2) :=
        Prod.ext hd rfl
      have h2 : unzip (archivePath dir) d.2 = (none, u.2) := Prod.ext hu rfl
      simp only [h1, h2]
    have hs : r.2.since w
        = (.create (archivePath dir) :: ld) ++ (.openReader (archivePath dir) :: lu)
          ++ [.remove (archivePath dir)] := by
      rw [hres]
      apply since_of_trace_eq
      rw [hr, hlu', hld']
      simp only [List.append_assoc]
    refine ⟨hres, ⟨ld, lu, hs, hds, hus, hldP, hluP⟩, ?_, ?_⟩
    · rw [hs]
      have c1 : ld.count (.remove (archivePath dir)) = 0 :=
        List.count_eq_zero.mpr (fun h => (not_remove_of_ofDownload (hldP _ h)).2 _ rfl)
      have c2 : lu.count (.remove (archivePath dir)) = 0 :=
        List.count_eq_zero.mpr (fun h => not_remove_of_ofUnzip (hluP _ h) _ rfl)
      simp [List.count_cons, c1, c2]
    · rw [hs, List.getLast?_concat]

/-- Witness of `downloadHTTPWasmArtifact_steps`: a run in which all three
steps succeed; the entry of the archive is extracted and the archive is
gone. -/
theorem downloadHTTPWasmArtifact_steps_witness :
    (downloadHTTPWasmArtifact "v1.2.3".toList "./build".toList artifactWorld).1 = none ∧
    (downloadHTTPWasmArtifact "v1.2.3".toList "./build".toList artifactWorld).2.trace
      = [.create "build/coraza-http-wasm.zip".toList,
          .get "https://github.com/timbit123/coraza-http-wasm/releases/download/v1.2.3/coraza-http-wasm-v1.2.3.zip".toList,
          .copy "build/coraza-http-wasm.zip".toList,
          .openReader "build/coraza-http-wasm.zip".toList,
          .mkdirAll "build".toList,
          .create "build/coraza-http-wasm.wasm".toList,
          .copy "build/coraza-http-wasm.wasm".toList,
          .remove "build/coraza-http-wasm.zip".toList] ∧
    (downloadHTTPWasmArtifact "v1.2.3".toList "./build".toList artifactWorld).2.file
      "build/coraza-http-wasm.wasm".toList = some "wasm".toList ∧
    (downloadHTTPWasmArtifact "v1.2.3".toList "./build".toList artifactWorld).2.file
      "build/coraza-http-wasm.zip".toList = none ∧
    ((downloadHTTPWasmArtifact "v1.2.3".toList "./build".toList artifactWorld).2.since
      artifactWorld).count (.remove (archivePath "./build".toList)) = 1 :=
  ⟨rfl, rfl, rfl, rfl,
    ((downloadHTTPWasmArtifact_steps "v1.2.3".toList "./build".toList artifactWorld).2.2
      rfl rfl).2.2.1⟩

/-- C3, evaluated: for the archive `build/coraza-http-wasm.zip` with the
entries `a.txt` and `dir/b.txt`, in a world without faults where `build`
exists and `build/dir` does not, `unzip` extracts `a.txt` and then fails at
`dir/b.txt`: `os.MkdirAll` is called with `build`, not with `build/dir`, and
creating the file fails. With `build/dir` in place both files are
extracted. -/
theorem unzip_nested_entry_fails :
    (unzip "build/coraza-http-wasm.zip".toList extractWorld).1
      = some (.pathError "open".toList "build/dir/b.txt".toList .ENOENT) ∧
    (unzip "build/coraza-http-wasm.zip".toList extractWorld).2.file "build/a.txt".toList
      = some "x".toList ∧
    (unzip "build/coraza-http-wasm.zip".toList extractWorld).2.file "build/dir/b.txt".toList
      = none ∧
    (unzip "build/coraza-http-wasm.zip".toList extractWorld).2.isDir "build/dir".toList
      = false ∧
    (unzip "build/coraza-http-wasm.zip".toList extractWorld).2.trace
      = [.openReader "build/coraza-http-wasm.zip".toList,
          .mkdirAll "build".toList, .create "build/a.txt".toList, .copy "build/a.txt".toList,
          .mkdirAll "build".toList, .create "build/dir/b.txt".toList] ∧
    (unzip "build/coraza-http-wasm.zip".toList extractWorldWithDir).1 = none ∧
    (unzip "build/coraza-http-wasm.zip".toList extractWorldWithDir).2.file
      "build/a.txt".toList = some "x".toList ∧
    (unzip "build/coraza-http-wasm.zip".toList extractWorldWithDir).2.file
      "build/dir/b.txt".toList = some "y".toList :=
  ⟨rfl, rfl, rfl, rfl, rfl, rfl, rfl, rfl⟩

end Magefile
